import Mathlib

/-!
Shallow embedding of the leechy-torrent BitTorrent client (Go) in Lean 4.

Byte strings are modelled as `List Nat`, where each element stands for one
byte of a Go `[]byte` or `string`; functions that read from the wire reduce
incoming elements modulo 256, mirroring the `byte` type of the source.
Go `int` values are modelled as `Int` (64-bit overflow never occurs at the
magnitudes reachable here), `uint32` conversions are modelled with explicit
`% 2^32` arithmetic, and truncated division `Int.tdiv` / `Int.tmod` mirrors
Go integer division and remainder.  Fallible functions return `Option`
(`none` is the error return), and in-place mutation of a buffer is modelled
by returning the updated buffer.
-/

/-- Big-endian serialization of the low 32 bits of `n`, as four bytes.
Models `binary.BigEndian.PutUint32` applied to `uint32(n)`. -/
def u32be (n : Nat) : List Nat :=
  [n / 2 ^ 24 % 256, n / 2 ^ 16 % 256, n / 2 ^ 8 % 256, n % 256]

/-- Big-endian decoding of a list of bytes; on a 4-element list this models
`binary.BigEndian.Uint32`. -/
def beUint32 (l : List Nat) : Nat :=
  l.foldl (fun acc b => acc * 256 + b % 256) 0

/-- Big-endian decoding of a 2-byte slice; models `binary.BigEndian.Uint16`. -/
def beUint16 (l : List Nat) : Nat :=
  l.foldl (fun acc b => acc * 256 + b % 256) 0

/-- A peer-wire message: `message.Message` from `message.go`.  `Id` is a byte
(`MessageId`), `Payload` the variable-length payload. -/
structure Message where
  Id : Nat
  Payload : List Nat
deriving DecidableEq, Repr

/-- Message ids from `message.go` (`MsgChoke` .. `MsgCancel`). -/
def MsgChoke : Nat := 0

/-- Id of the unchoke message. -/
def MsgUnchoke : Nat := 1

/-- Id of the interested message. -/
def MsgInterested : Nat := 2

/-- Id of the not-interested message. -/
def MsgNotInterested : Nat := 3

/-- Id of the have message. -/
def MsgHave : Nat := 4

/-- Id of the bitfield message. -/
def MsgBitfield : Nat := 5

/-- Id of the request message. -/
def MsgRequest : Nat := 6

/-- Id of the piece message. -/
def MsgPiece : Nat := 7

/-- Id of the cancel message. -/
def MsgCancel : Nat := 8

/-- `(*Message).Serialize` from `message.go`.  A `nil` receiver (the
keep-alive) is modelled by `none`.  The length prefix is computed as
`uint32(len(Payload) + 1)` and the buffer as `make([]byte, 4+length)`, both
with 32-bit wraparound; when the wrapped buffer is shorter than 5 bytes the
Go code panics writing the id byte (`buf[4] = ...`), modelled by `none` in
the result.  `copy(buf[5:], msg.Payload)` copies
`min (bufLen - 5) Payload.length` bytes and leaves the rest of the
zero-initialized buffer as zero bytes. -/
def Message.Serialize (msg : Option Message) : Option (List Nat) :=
  match msg with
  | none => some [0, 0, 0, 0]
  | some m =>
    let length := (m.Payload.length + 1) % 2 ^ 32
    let bufLen := (4 + length) % 2 ^ 32
    if bufLen < 5 then none
    else
      let k := min (bufLen - 5) m.Payload.length
      some (u32be length ++ m.Id % 256 :: (m.Payload.take k ++ List.replicate (bufLen - 5 - k) 0))

/-- Result of `message.Read`: an I/O error, the keep-alive (`nil, nil` in Go),
or a parsed message. -/
inductive ReadResult where
  | err : ReadResult
  | keepAlive : ReadResult
  | msg : Message → ReadResult
deriving DecidableEq, Repr

/-- `message.Read` from `message.go`, where the `io.Reader` is modelled as the
list of bytes it will deliver.  `io.ReadFull` fails (and `Read` surfaces the
error) exactly when fewer bytes remain than requested. -/
def Message.Read (input : List Nat) : ReadResult :=
  if input.length < 4 then .err
  else
    let payloadLen := beUint32 (input.take 4)
    if payloadLen = 0 then .keepAlive
    else
      let rest := input.drop 4
      if rest.length < payloadLen then .err
      else
        let msgBuf := rest.take payloadLen
        .msg { Id := msgBuf.headD 0 % 256, Payload := msgBuf.tail }

/-- Go's `copy(dst[off:], src)`: writes `min src.length (dst.length - off)`
bytes of `src` at offset `off` of `dst`, leaving everything else unchanged. -/
def copyInto (dst : List Nat) (off : Nat) (src : List Nat) : List Nat :=
  let k := min src.length (dst.length - off)
  dst.take off ++ src.take k ++ dst.drop (off + k)

/-- `message.ParsePiece` from `message.go`.  Returns the number of bytes
written (`none` on error) together with the data buffer after the call
(unchanged on the error paths, updated by the `copy` on success). -/
def ParsePiece (index : Nat) (dataBuf : List Nat) (msg : Message) : Option Nat × List Nat :=
  if msg.Id ≠ MsgPiece then (none, dataBuf)
  else if msg.Payload.length < 8 then (none, dataBuf)
  else
    let parsedIndex := beUint32 (msg.Payload.take 4)
    if parsedIndex ≠ index then (none, dataBuf)
    else
      let begin := beUint32 ((msg.Payload.drop 4).take 4)
      if begin ≥ dataBuf.length then (none, dataBuf)
      else
        let data := msg.Payload.drop 8
        if begin + data.length > dataBuf.length then (none, dataBuf)
        else (some data.length, copyInto dataBuf begin data)

/-- `message.ParseHave` from `message.go`. -/
def ParseHave (msg : Message) : Option Nat :=
  if msg.Id ≠ MsgHave then none
  else if msg.Payload.length ≠ 4 then none
  else some (beUint32 msg.Payload)

/-- `message.FormatRequestMsg` from `message.go`: a request message whose
12-byte payload is the big-endian `uint32` images of index, begin, length. -/
def FormatRequestMsg (index begin length : Nat) : Message :=
  { Id := MsgRequest, Payload := u32be index ++ u32be begin ++ u32be length }

/-- `message.FormatHave` from `message.go`. -/
def FormatHave (index : Nat) : Message :=
  { Id := MsgHave, Payload := u32be index }

/-- `bitfield.Bitfield.HasPiece` from `bitfield.go`.  The index is a Go `int`
(possibly negative); `/` and `%` on Go ints truncate toward zero, modelled by
`Int.tdiv` / `Int.tmod`.  A byte shifted by 8 or more positions is 0. -/
def HasPiece (bf : List Nat) (index : Int) : Bool :=
  let byteIndex := index.tdiv 8
  let offset := index.tmod 8
  if byteIndex < 0 ∨ (bf.length : Int) ≤ byteIndex then false
  else
    let bitValue := bf.getD byteIndex.toNat 0 >>> (7 - offset).toNat
    bitValue &&& 1 == 1

/-- `bitfield.Bitfield.SetPiece` from `bitfield.go`.  The untyped constant 1
is shifted as a `byte` (`uint8`), so `1 << s` is `(1 <<< s) % 256`, which is 0
for shifts of 8 or more. -/
def SetPiece (bf : List Nat) (index : Int) : List Nat :=
  let byteIndex := index.tdiv 8
  let offset := index.tmod 8
  if byteIndex < 0 ∨ (bf.length : Int) ≤ byteIndex then bf
  else bf.set byteIndex.toNat (bf.getD byteIndex.toNat 0 ||| 1 <<< (7 - offset).toNat % 256)

/-- `handshake.Handshake` from `handshake.go`.  `InfoHash` and `PeerId` have
Go type `common.Sha1Hash = [20]byte`, so they are always 20 bytes long; the
theorems below carry that type invariant as a hypothesis. -/
structure Handshake where
  Pstr : List Nat
  InfoHash : List Nat
  PeerId : List Nat
deriving DecidableEq, Repr

/-- `(*Handshake).Serialize` from `handshake.go`: length byte of the protocol
string (`byte(len(hs.Pstr))`, i.e. mod 256), the protocol string, 8 reserved
zero bytes, the 20-byte info-hash and the 20-byte peer-id. -/
def Handshake.Serialize (hs : Handshake) : List Nat :=
  hs.Pstr.length % 256 :: (hs.Pstr ++ List.replicate 8 0 ++ hs.InfoHash ++ hs.PeerId)

/-- `handshake.Read` from `handshake.go`, with the `io.Reader` modelled as the
list of bytes it will deliver.  Rejects a zero length byte, then requires
`48 + L` further bytes and splits them into protocol string, reserved bytes,
info-hash and peer-id. -/
def Handshake.Read (input : List Nat) : Option Handshake :=
  match input with
  | [] => none
  | b :: rest =>
    let protocolIdLength := b % 256
    if protocolIdLength = 0 then none
    else if rest.length < 48 + protocolIdLength then none
    else
      let handshakeBuf := rest.take (48 + protocolIdLength)
      let offset := protocolIdLength + 8
      some { Pstr := handshakeBuf.take protocolIdLength,
             InfoHash := (handshakeBuf.drop offset).take 20,
             PeerId := (handshakeBuf.drop (offset + 20)).take 20 }

/-- `peers.Peer` from `peers.go`: a 4-byte IPv4 address and a port. -/
structure Peer where
  IP : List Nat
  Port : Nat
deriving DecidableEq, Repr

/-- `peers.Unmarshal` from `peers.go`: fails unless the input length is a
multiple of 6, otherwise produces one peer per 6-byte group (4 address bytes,
then a big-endian 16-bit port). -/
def Unmarshal (peersBin : List Nat) : Option (List Peer) :=
  if peersBin.length % 6 ≠ 0 then none
  else
    some ((List.range (peersBin.length / 6)).map fun i =>
      { IP := ((peersBin.drop (6 * i)).take 4),
        Port := beUint16 ((peersBin.drop (6 * i + 4)).take 2) })

/-- Bytes of a Lean string literal; used to write ASCII byte strings. -/
def strB (s : String) : List Nat :=
  s.toList.map Char.toNat

/-- Decimal digits (ASCII) of `n`, computed with enough fuel to cover every
digit; models `strconv.Itoa` for non-negative values. -/
def natDecimalAux : Nat → Nat → List Nat
  | _, 0 => []
  | n, fuel + 1 =>
    if n < 10 then [48 + n]
    else natDecimalAux (n / 10) fuel ++ [48 + n % 10]

/-- Decimal digits (ASCII) of a natural number. -/
def natDecimal (n : Nat) : List Nat :=
  natDecimalAux n (n + 1)

/-- Characters that Go's `url.QueryEscape` leaves unescaped: ASCII letters,
digits and `-` `.` `_` `~`. -/
def isUnreservedByte (b : Nat) : Bool :=
  (65 ≤ b && b ≤ 90) || (97 ≤ b && b ≤ 122) || (48 ≤ b && b ≤ 57) ||
    b == 45 || b == 46 || b == 95 || b == 126

/-- ASCII code of the uppercase hexadecimal digit for `n < 16`. -/
def hexUpperDigit (n : Nat) : Nat :=
  if n < 10 then 48 + n else 55 + n

/-- Go's `url.QueryEscape` on a byte string: unreserved bytes kept, space
becomes `+`, every other byte becomes `%XX` with uppercase hex. -/
def queryEscape : List Nat → List Nat
  | [] => []
  | b :: rest =>
    (if isUnreservedByte (b % 256) then [b % 256]
     else if b % 256 == 32 then [43]
     else [37, hexUpperDigit (b % 256 / 16), hexUpperDigit (b % 256 % 16)]) ++ queryEscape rest

/-- Byte-wise lexicographic order on byte strings, as used by Go's
`sort.Strings` inside `url.Values.Encode`. -/
def lexLe : List Nat → List Nat → Bool
  | [], _ => true
  | _ :: _, [] => false
  | a :: as, b :: bs => if a < b then true else if b < a then false else lexLe as bs

/-- Insert one `(key, value)` pair into a key-sorted parameter list. -/
def insertParam (p : List Nat × List Nat) :
    List (List Nat × List Nat) → List (List Nat × List Nat)
  | [] => [p]
  | q :: rest => if lexLe p.1 q.1 then p :: q :: rest else q :: insertParam p rest

/-- Sort parameters by key; models the `sort.Strings(keys)` iteration order of
`url.Values.Encode`. -/
def sortParams : List (List Nat × List Nat) → List (List Nat × List Nat)
  | [] => []
  | p :: rest => insertParam p (sortParams rest)

/-- Join non-empty encoded parameters with `&` (byte 38). -/
def joinAmp : List (List Nat) → List Nat
  | [] => []
  | [x] => x
  | x :: y :: rest => x ++ 38 :: joinAmp (y :: rest)

/-- `url.Values.Encode`: keys in sorted order, each pair rendered as
`escape(key) = escape(value)` (byte 61 is `=`), pairs joined with `&`. -/
def encodeValues (params : List (List Nat × List Nat)) : List Nat :=
  joinAmp ((sortParams params).map fun p => queryEscape p.1 ++ 61 :: queryEscape p.2)

/-- `(*TorrentFile).BuildTrackerUrl` from `tracker.go`.  The seven query
parameters are attached to the parsed announce URL and re-serialized; for an
announce URL without a query component (such as the tracker URLs in scope),
`url.Parse` followed by `URL.String` reproduces the announce bytes with
`?` and the encoded query appended. -/
def BuildTrackerUrl (announce : List Nat) (infoHash peerId : List Nat)
    (port : Nat) (length : Nat) : List Nat :=
  announce ++ 63 :: encodeValues
    [(strB "info_hash", infoHash),
     (strB "peer_id", peerId),
     (strB "port", natDecimal port),
     (strB "uploaded", strB "0"),
     (strB "downloaded", strB "0"),
     (strB "compact", strB "1"),
     (strB "left", natDecimal length)]

/-- `p2p.Torrent` from the p2p package, restricted to the fields read by
`calculateBoundsForPiece` and `calculatePieceSize` (`Length`, `PieceLength`)
plus the piece-hash list that determines the number of pieces; the remaining
fields (name, peers, ids) are irrelevant to those functions. -/
structure Torrent where
  Length : Int
  PieceLength : Int
  PiecesHashes : List (List Nat)
deriving DecidableEq, Repr

/-- `(*Torrent).calculateBoundsForPiece`: start `= index * PieceLength`, end
`= start + PieceLength` clamped to the torrent length. -/
def Torrent.calculateBoundsForPiece (torrent : Torrent) (index : Int) : Int × Int :=
  let start := index * torrent.PieceLength
  let stop := start + torrent.PieceLength
  if stop > torrent.Length then (start, torrent.Length) else (start, stop)

/-- `(*Torrent).calculatePieceSize`: end bound minus start bound. -/
def Torrent.calculatePieceSize (torrent : Torrent) (index : Int) : Int :=
  let bounds := torrent.calculateBoundsForPiece index
  bounds.2 - bounds.1

/-- `p2p.MaxBlockSize`. -/
def MaxBlockSize : Int := 16384

/-- `p2p.MaxBacklog`. -/
def MaxBacklog : Int := 8

/-- The mutable state of one `attemptDownloadPiece` run: the
`p2p.PieceProgress` record inlined with the two fields of the attached
`client.Client` that the loop reads and writes (`Choked`, `Bitfield`). -/
structure DLState where
  Choked : Bool
  Bitfield : List Nat
  Index : Nat
  Buf : List Nat
  Downloaded : Int
  Requested : Int
  Backlog : Int
deriving DecidableEq, Repr

/-- The request-filling inner loop of `attemptDownloadPiece`: while
`Backlog != MaxBacklog && Requested < pw.Length`, send a request for the next
block of size `min MaxBlockSize (len - Requested)` and advance.  Returns the
final backlog, the final requested count, and the `(begin, length)` pairs of
the requests sent, in order. -/
def sendLoop (len : Int) (backlog requested : Int) : Int × Int × List (Int × Int) :=
  if backlog ≠ MaxBacklog ∧ requested < len then
    let blockSize := min MaxBlockSize (len - requested)
    let r := sendLoop len (backlog + 1) (requested + blockSize)
    (r.1, r.2.1, (requested, blockSize) :: r.2.2)
  else (backlog, requested, [])
termination_by (len - requested).toNat
decreasing_by
  have : 0 < min MaxBlockSize (len - requested) := by
    simp only [MaxBlockSize]; omega
  omega

/-- `(*PieceProgress).ReadMessage` from the p2p package, applied to one
already-received message (`none` is the keep-alive).  Returns `none` when the
Go method returns an error (a failing `ParseHave` or `ParsePiece`), otherwise
the updated state: choke and unchoke set the choked flag, have sets a bit in
the peer's bitfield, piece copies the block into the buffer, adds the bytes
written to `Downloaded` and decrements `Backlog`; other ids leave the state
unchanged. -/
def DLState.ReadMessage (st : DLState) (msg : Option Message) : Option DLState :=
  match msg with
  | none => some st
  | some m =>
    if m.Id = MsgChoke then some { st with Choked := true }
    else if m.Id = MsgUnchoke then some { st with Choked := false }
    else if m.Id = MsgHave then
      match ParseHave m with
      | none => none
      | some index => some { st with Bitfield := SetPiece st.Bitfield (index : Int) }
    else if m.Id = MsgPiece then
      match ParsePiece st.Index st.Buf m with
      | (none, _) => none
      | (some pieceSize, buf) =>
        some { st with Buf := buf,
                       Downloaded := st.Downloaded + pieceSize,
                       Backlog := st.Backlog - 1 }
    else some st

/-- A request message sent by the download loop, tagged with the value of the
session's choked flag at the moment it was sent. -/
structure SentRequest where
  ChokedAtSend : Bool
  Index : Nat
  Begin : Int
  Length : Int
deriving DecidableEq, Repr

/-- The outer loop of `attemptDownloadPiece` driven by a finite list of
incoming messages.  Each iteration first runs the request-filling loop when
the session is not choked, then processes one incoming message.  The run
stops when `Downloaded ≥ len` (the Go loop exits), when a message fails to
parse (the Go function returns the error), or when the message list is
exhausted.  Returns every intermediate state (before and after each send
phase) and all requests sent. -/
def runDL (len : Int) (st : DLState) :
    List (Option Message) → List DLState × List SentRequest
  | [] => ([st], [])
  | m :: rest =>
    if st.Downloaded < len then
      let send := if st.Choked then (st.Backlog, st.Requested, ([] : List (Int × Int)))
                  else sendLoop len st.Backlog st.Requested
      let st1 := { st with Backlog := send.1, Requested := send.2.1 }
      let reqs := send.2.2.map fun rq =>
        { ChokedAtSend := st.Choked, Index := st.Index, Begin := rq.1, Length := rq.2 : SentRequest }
      match st1.ReadMessage m with
      | none => ([st, st1], reqs)
      | some st2 =>
        let r := runDL len st2 rest
        (st :: st1 :: r.1, reqs ++ r.2)
    else ([st], [])

/-- A piece message conforms to the request/response discipline at state `st`
when, if it parses successfully, at least one request is outstanding and its
block is no larger than the gap between requested and downloaded bytes.
Non-piece messages always conform. -/
def pieceConforming (st : DLState) (msg : Option Message) : Bool :=
  match msg with
  | none => true
  | some m =>
    if m.Id = MsgPiece then
      match ParsePiece st.Index st.Buf m with
      | (some pieceSize, _) =>
        decide (1 ≤ st.Backlog) && decide ((pieceSize : Int) ≤ st.Requested - st.Downloaded)
      | (none, _) => true
    else true

/-- Every message of the run conforms (checked at the state in which the
message is processed, after that iteration's send phase). -/
def conformingRun (len : Int) (st : DLState) : List (Option Message) → Bool
  | [] => true
  | m :: rest =>
    if st.Downloaded < len then
      let send := if st.Choked then (st.Backlog, st.Requested, ([] : List (Int × Int)))
                  else sendLoop len st.Backlog st.Requested
      let st1 := { st with Backlog := send.1, Requested := send.2.1 }
      pieceConforming st1 m &&
        (match st1.ReadMessage m with
         | none => true
         | some st2 => conformingRun len st2 rest)
    else true

/-- The initial state built at the top of `attemptDownloadPiece`: zero
counters and a zeroed buffer of the piece length (`make([]byte, pw.Length)`);
the choked flag and bitfield are whatever the session currently holds. -/
def initProgress (index : Nat) (choked : Bool) (bf : List Nat) (len : Int) : DLState :=
  { Choked := choked, Bitfield := bf, Index := index,
    Buf := List.replicate len.toNat 0,
    Downloaded := 0, Requested := 0, Backlog := 0 }

/-- The piece-session invariant of the specification: counters ordered and
the backlog within `[0, MaxBacklog]`. -/
def PieceInv (len : Int) (st : DLState) : Prop :=
  0 ≤ st.Downloaded ∧ st.Downloaded ≤ st.Requested ∧ st.Requested ≤ len ∧
    0 ≤ st.Backlog ∧ st.Backlog ≤ MaxBacklog

/-- Every byte fetched from a byte string (with default 0) is below 256. -/
theorem getD_lt_256 (bf : List Nat) (h : ∀ b ∈ bf, b < 256) (n : Nat) :
    bf.getD n 0 < 256 := by
  rcases Nat.lt_or_ge n bf.length with hn | hn
  · rw [List.getD_eq_getElem bf 0 hn]
    exact h _ (List.getElem_mem hn)
  · rw [List.getD_eq_default]
    · omega
    · omega

/-- The low bit of a right shift is the corresponding test bit. -/
theorem and_one_eq_one_iff_testBit (b k : Nat) :
    ((b >>> k &&& 1) == 1) = Nat.testBit b k := by
  rw [Nat.testBit_to_div_mod, Nat.and_one_is_mod, Nat.shiftRight_eq_div_pow]
  rcases Nat.mod_two_eq_zero_or_one (b / 2 ^ k) with h | h <;> simp [h]



/-- Writing back the value already stored leaves a list unchanged. -/
theorem set_getD_self (l : List Nat) (n : Nat) : l.set n (l.getD n 0) = l := by
  rcases Nat.lt_or_ge n l.length with h | h
  · rw [List.getD_eq_getElem l 0 h]
    apply List.ext_getElem?
    intro m
    rw [List.getElem?_set]
    split
    · simp_all
    · rfl
  · exact List.set_eq_of_length_le h

/-- Truncated division by 8 on a non-negative Go int agrees with Nat division. -/
theorem tdiv8_cast (m : Nat) : ((m : Int)).tdiv 8 = ((m / 8 : Nat) : Int) := rfl

/-- Truncated remainder by 8 on a non-negative Go int agrees with Nat remainder. -/
theorem tmod8_cast (m : Nat) : ((m : Int)).tmod 8 = ((m % 8 : Nat) : Int) := rfl

/-- Truncated division by 8 on a negative Go int rounds toward zero. -/
theorem tdiv8_negSucc (k : Nat) : (Int.negSucc k).tdiv 8 = -Int.ofNat ((k + 1) / 8) := rfl

/-- Truncated remainder by 8 on a negative Go int keeps the sign of the dividend. -/
theorem tmod8_negSucc (k : Nat) : (Int.negSucc k).tmod 8 = -Int.ofNat ((k + 1) % 8) := rfl

/-- Shifting a byte right by 8 or more positions yields zero. -/
theorem shiftRight_large_eq_zero (b k : Nat) (hb : b < 256) (hk : 8 ≤ k) :
    b >>> k = 0 := by
  rw [Nat.shiftRight_eq_div_pow]
  apply Nat.div_eq_of_lt
  calc b < 256 := hb
    _ = 2 ^ 8 := by norm_num
    _ ≤ 2 ^ k := Nat.pow_le_pow_right (by norm_num) hk

/-- C6: `HasPiece i` is true exactly when `i` lies in `[0, 8*len)` and the
MSB-first bit `7 - i % 8` of byte `i / 8` is set; `HasPiece` is false and
`SetPiece` is the identity on every negative or out-of-range index. -/
theorem C6_bitfield (bf : List Nat) (hbytes : ∀ b ∈ bf, b < 256) (i : Int) :
    (HasPiece bf i = true ↔
      0 ≤ i ∧ i < 8 * bf.length ∧
        Nat.testBit (bf.getD (i.toNat / 8) 0) (7 - i.toNat % 8) = true) ∧
    ((i < 0 ∨ 8 * (bf.length : Int) ≤ i) → HasPiece bf i = false) ∧
    ((i < 0 ∨ 8 * (bf.length : Int) ≤ i) → SetPiece bf i = bf) := by
  cases i with
  | ofNat m =>
    have hiff : HasPiece bf (Int.ofNat m) = true ↔
        0 ≤ (Int.ofNat m) ∧ (Int.ofNat m) < 8 * bf.length ∧
          Nat.testBit (bf.getD ((Int.ofNat m).toNat / 8) 0) (7 - (Int.ofNat m).toNat % 8) = true := by
      simp only [Int.ofNat_eq_natCast]
      simp only [HasPiece, tdiv8_cast, tmod8_cast]
      split_ifs with hcond
      · -- out of range: result is false
        simp only [Bool.false_eq_true, false_iff]
        intro h
        have h2 := h.2.1
        push_cast at h2 hcond
        omega
      · -- in range
        push_cast at hcond
        have hm : m / 8 < bf.length := by omega
        have ht : ((7 : Int) - (((m % 8 : Nat) : Int))).toNat = 7 - m % 8 := by omega
        have hm8 : (((m / 8 : Nat) : Int)).toNat = m / 8 := by omega
        rw [ht, hm8, and_one_eq_one_iff_testBit]
        constructor
        · intro h
          refine ⟨by omega, by omega, h⟩
        · exact fun h => h.2.2
    refine ⟨hiff, ?_, ?_⟩
    · intro h
      cases hb : HasPiece bf (Int.ofNat m) with
      | false => rfl
      | true =>
        exfalso
        have hr := (hiff.mp hb).2.1
        simp only [Int.ofNat_eq_natCast] at h hr
        omega
    · intro h
      simp only [Int.ofNat_eq_natCast] at h ⊢
      simp only [SetPiece, tdiv8_cast]
      rw [if_pos]
      push_cast
      omega
  | negSucc k =>
    have hfalse : HasPiece bf (Int.negSucc k) = false := by
      simp only [HasPiece, tdiv8_negSucc, tmod8_negSucc, Int.ofNat_eq_natCast]
      split_ifs with hcond
      · rfl
      · push_cast at hcond
        have hk : (k + 1) / 8 = 0 := by omega
        have hk7 : k < 7 := by omega
        have hsh : ((7 : Int) - -(((k + 1) % 8 : Nat) : Int)).toNat = 8 + k := by omega
        rw [hsh, shiftRight_large_eq_zero _ _ (getD_lt_256 bf hbytes _) (by omega)]
        rfl
    refine ⟨?_, fun _ => hfalse, ?_⟩
    · rw [hfalse]
      simp only [Bool.false_eq_true, false_iff]
      intro h
      exact absurd h.1 (by simp)
    · intro h
      simp only [SetPiece, tdiv8_negSucc, tmod8_negSucc, Int.ofNat_eq_natCast]
      split_ifs with hcond
      · rfl
      · push_cast at hcond
        have hk : (k + 1) / 8 = 0 := by omega
        have hk7 : k < 7 := by omega
        have hsh : ((7 : Int) - -(((k + 1) % 8 : Nat) : Int)).toNat = 8 + k := by omega
        have hzero : 1 <<< (8 + k) % 256 = 0 := by
          rw [Nat.shiftLeft_eq, one_mul, Nat.pow_add]
          simp [Nat.mul_mod_right]
        have hbyte0 : ((-(((k + 1) / 8 : Nat) : Int))).toNat = 0 := by omega
        rw [hsh, hbyte0, hzero]
        simp only [Nat.or_zero]
        exact set_getD_self bf 0

/-- Witness for C6 at the bitfield `[0b01010100, 0b01010100]` and index 3. -/
theorem C6_witness :
    (∀ b ∈ [84, 84], b < 256) ∧
    (HasPiece [84, 84] 3 = true ↔
      0 ≤ (3 : Int) ∧ (3 : Int) < 8 * ([84, 84] : List Nat).length ∧
        Nat.testBit (([84, 84] : List Nat).getD ((3 : Int).toNat / 8) 0) (7 - (3 : Int).toNat % 8) = true) :=
  ⟨by decide, (C6_bitfield [84, 84] (by decide) 3).1⟩

/-- Reading back a big-endian 32-bit serialization recovers the low 32 bits. -/
theorem beUint32_u32be (n : Nat) : beUint32 (u32be n) = n % 2 ^ 32 := by
  simp only [u32be, beUint32, List.foldl]
  omega

/-- C2: `ParsePiece` errors exactly when the id is not 7, the payload is
shorter than 8 bytes, the parsed index differs from the expected one, the
parsed begin offset is at or beyond the end of the buffer, or the block
overruns the buffer; otherwise it splices the block into the buffer at the
begin offset and returns the block length. -/
theorem C2_parse_piece (index : Nat) (dataBuf : List Nat) (msg : Message) :
    ((ParsePiece index dataBuf msg).1 = none ↔
      msg.Id ≠ 7 ∨ msg.Payload.length < 8 ∨
        beUint32 (msg.Payload.take 4) ≠ index ∨
        dataBuf.length ≤ beUint32 ((msg.Payload.drop 4).take 4) ∨
        dataBuf.length < beUint32 ((msg.Payload.drop 4).take 4) + (msg.Payload.length - 8)) ∧
    (msg.Id = 7 → 8 ≤ msg.Payload.length →
      beUint32 (msg.Payload.take 4) = index →
      beUint32 ((msg.Payload.drop 4).take 4) < dataBuf.length →
      beUint32 ((msg.Payload.drop 4).take 4) + (msg.Payload.length - 8) ≤ dataBuf.length →
      ParsePiece index dataBuf msg =
        (some (msg.Payload.length - 8),
         dataBuf.take (beUint32 ((msg.Payload.drop 4).take 4)) ++ msg.Payload.drop 8 ++
           dataBuf.drop (beUint32 ((msg.Payload.drop 4).take 4) + (msg.Payload.length - 8)))) := by
  have hlen : (msg.Payload.drop 8).length = msg.Payload.length - 8 := by
    simp [List.length_drop]
  constructor
  · by_cases h1 : msg.Id = 7
    · by_cases h2 : msg.Payload.length < 8
      · simp only [ParsePiece]
        rw [if_neg (by simp [MsgPiece, h1]), if_pos h2]
        exact iff_of_true rfl (Or.inr (Or.inl h2))
      · by_cases h3 : beUint32 (msg.Payload.take 4) = index
        · by_cases h4 : dataBuf.length ≤ beUint32 ((msg.Payload.drop 4).take 4)
          · simp only [ParsePiece]
            rw [if_neg (by simp [MsgPiece, h1]), if_neg h2, if_neg (by simp [h3]), if_pos h4]
            exact iff_of_true rfl (Or.inr (Or.inr (Or.inr (Or.inl h4))))
          · by_cases h5 : dataBuf.length < beUint32 ((msg.Payload.drop 4).take 4) + (msg.Payload.length - 8)
            · simp only [ParsePiece]
              rw [if_neg (by simp [MsgPiece, h1]), if_neg h2, if_neg (by simp [h3]), if_neg h4,
                if_pos (show dataBuf.length < _ + (msg.Payload.drop 8).length by rw [hlen]; exact h5)]
              exact iff_of_true rfl (Or.inr (Or.inr (Or.inr (Or.inr h5))))
            · simp only [ParsePiece]
              rw [if_neg (by simp [MsgPiece, h1]), if_neg h2, if_neg (by simp [h3]), if_neg h4,
                if_neg (show ¬ dataBuf.length < _ + (msg.Payload.drop 8).length by rw [hlen]; exact h5)]
              refine iff_of_false (by simp) ?_
              rintro (h | h | h | h | h)
              exacts [h h1, by omega, h h3, by omega, by omega]
        · simp only [ParsePiece]
          rw [if_neg (by simp [MsgPiece, h1]), if_neg h2, if_pos h3]
          exact iff_of_true rfl (Or.inr (Or.inr (Or.inl h3)))
    · simp only [ParsePiece]
      rw [if_pos (by simp [MsgPiece, h1])]
      exact iff_of_true rfl (Or.inl h1)
  · intro h1 h2 h3 h4 h5
    simp only [ParsePiece]
    rw [if_neg (by simp [MsgPiece, h1]), if_neg (by omega), if_neg (by simp [h3]),
        if_neg (by omega),
        if_neg (show ¬ dataBuf.length < _ + (msg.Payload.drop 8).length by rw [hlen]; omega)]
    rw [hlen]
    congr 1
    rw [copyInto]
    have hk : min (msg.Payload.drop 8).length
        (dataBuf.length - beUint32 ((msg.Payload.drop 4).take 4)) = msg.Payload.length - 8 := by
      rw [hlen]; omega
    rw [hk, List.take_of_length_le (le_of_eq hlen)]

/-- C10: whenever `ParsePiece` returns an error, the destination buffer is unchanged. -/
theorem C10_parse_piece_error (index : Nat) (dataBuf : List Nat) (msg : Message)
    (h : (ParsePiece index dataBuf msg).1 = none) :
    (ParsePiece index dataBuf msg).2 = dataBuf := by
  simp only [ParsePiece] at h ⊢
  split_ifs at h ⊢ <;> simp_all

/-- C9: `FormatRequest(4, 567, 4321)`, serialized with its length prefix,
is exactly `00 00 00 0D 06 00 00 00 04 00 00 02 37 00 00 10 E1`. -/
theorem C9_request_framing :
    Message.Serialize (some (FormatRequestMsg 4 567 4321)) =
      some [0x00, 0x00, 0x00, 0x0D, 0x06, 0x00, 0x00, 0x00, 0x04,
            0x00, 0x00, 0x02, 0x37, 0x00, 0x00, 0x10, 0xE1] := by decide

/-- A 4-byte slice at offset `n` of a sufficiently long list, element by element. -/
theorem drop_take4 (l : List Nat) (n : Nat) (h : n + 4 ≤ l.length) :
    (l.drop n).take 4 = [l.getD n 0, l.getD (n+1) 0, l.getD (n+2) 0, l.getD (n+3) 0] := by
  rw [List.drop_eq_getElem_cons (show n < l.length by omega),
      List.drop_eq_getElem_cons (show n + 1 < l.length by omega),
      List.drop_eq_getElem_cons (show n + 1 + 1 < l.length by omega),
      List.drop_eq_getElem_cons (show n + 1 + 1 + 1 < l.length by omega)]
  rw [List.getD_eq_getElem l 0 (show n < l.length by omega),
      List.getD_eq_getElem l 0 (show n + 1 < l.length by omega),
      List.getD_eq_getElem l 0 (show n + 2 < l.length by omega),
      List.getD_eq_getElem l 0 (show n + 3 < l.length by omega)]
  rfl

/-- A 2-byte slice at offset `n` of a sufficiently long list, element by element. -/
theorem drop_take2 (l : List Nat) (n : Nat) (h : n + 2 ≤ l.length) :
    (l.drop n).take 2 = [l.getD n 0, l.getD (n+1) 0] := by
  rw [List.drop_eq_getElem_cons (show n < l.length by omega),
      List.drop_eq_getElem_cons (show n + 1 < l.length by omega)]
  rw [List.getD_eq_getElem l 0 (show n < l.length by omega),
      List.getD_eq_getElem l 0 (show n + 1 < l.length by omega)]
  rfl

/-- Big-endian 16-bit decoding of a 2-byte list. -/
theorem beUint16_pair (a b : Nat) : beUint16 [a, b] = 256 * (a % 256) + b % 256 := by
  simp [beUint16, List.foldl]
  ring

/-- C7: on input whose length is a multiple of 6, `Unmarshal` succeeds with
`len/6` peers, peer `k` carrying the 4 address bytes at offset `6k` and the
big-endian 16-bit port at offset `6k+4`; on any other length it fails. -/
theorem C7_unmarshal (peersBin : List Nat) :
    (peersBin.length % 6 = 0 →
      ∃ ps, Unmarshal peersBin = some ps ∧ ps.length = peersBin.length / 6 ∧
        ∀ k < peersBin.length / 6,
          ps.getD k ⟨[], 0⟩ =
            { IP := [peersBin.getD (6*k) 0, peersBin.getD (6*k+1) 0,
                     peersBin.getD (6*k+2) 0, peersBin.getD (6*k+3) 0],
              Port := 256 * (peersBin.getD (6*k+4) 0 % 256) + peersBin.getD (6*k+5) 0 % 256 }) ∧
    (peersBin.length % 6 ≠ 0 → Unmarshal peersBin = none) := by
  constructor
  · intro h
    refine ⟨_, by rw [Unmarshal, if_neg (by omega)], by simp, ?_⟩
    intro k hk
    have hmaplen : ((List.range (peersBin.length / 6)).map fun i =>
        ({ IP := ((peersBin.drop (6 * i)).take 4),
           Port := beUint16 ((peersBin.drop (6 * i + 4)).take 2) } : Peer)).length
        = peersBin.length / 6 := by simp
    rw [List.getD_eq_getElem _ _ (by omega : k < _)]
    rw [List.getElem_map, List.getElem_range]
    have hb : 6 * k + 6 ≤ peersBin.length := by omega
    rw [drop_take4 _ _ (by omega), drop_take2 _ _ (by omega), beUint16_pair]
  · intro h
    rw [Unmarshal, if_pos h]

/-- A big-endian 32-bit serialization is 4 bytes long. -/
theorem u32be_length (n : Nat) : (u32be n).length = 4 := rfl

/-- C4 (amended): reading back a serialized keep-alive yields the keep-alive,
and for every message whose id is a byte and whose payload holds at most
`2^32 - 6` bytes, reading back its serialization returns the same message. -/
theorem C4_message_round_trip :
    Message.Read ((Message.Serialize none).getD []) = .keepAlive ∧
    ∀ m : Message, m.Id < 256 → m.Payload.length ≤ 2 ^ 32 - 6 →
      Message.Read ((Message.Serialize (some m)).getD []) = .msg m := by
  refine ⟨by decide, ?_⟩
  rintro ⟨mid, mpl⟩ hid hlen
  simp only at hid hlen
  have hser : Message.Serialize (some ⟨mid, mpl⟩) =
      some (u32be (mpl.length + 1) ++ mid :: mpl) := by
    simp only [Message.Serialize]
    rw [Nat.mod_eq_of_lt (show mpl.length + 1 < 2 ^ 32 by omega),
        Nat.mod_eq_of_lt (show 4 + (mpl.length + 1) < 2 ^ 32 by omega),
        if_neg (by omega)]
    rw [show 4 + (mpl.length + 1) - 5 = mpl.length from by omega,
        Nat.min_self, List.take_of_length_le (le_refl _), Nat.sub_self,
        List.replicate_zero, List.append_nil, Nat.mod_eq_of_lt hid]
  rw [hser, Option.getD_some]
  simp only [Message.Read]
  rw [if_neg (by simp [u32be_length])]
  rw [List.take_left' (u32be_length _), List.drop_left' (u32be_length _)]
  rw [beUint32_u32be, Nat.mod_eq_of_lt (show mpl.length + 1 < 2 ^ 32 by omega)]
  rw [if_neg (by omega)]
  rw [if_neg (by simp)]
  rw [List.take_of_length_le (by simp)]
  simp only [List.headD_cons, List.tail_cons]
  rw [Nat.mod_eq_of_lt hid]


/-- With a payload of exactly `2^32` bytes the 32-bit length prefix wraps to
1 and `Serialize` emits a 5-byte frame that drops the whole payload. -/
theorem serialize_wrap_eval (mid : Nat) (hid : mid < 256) (mpl : List Nat)
    (hl : mpl.length = 2 ^ 32) :
    Message.Serialize (some ⟨mid, mpl⟩) = some [0, 0, 0, 1, mid] := by
  simp only [Message.Serialize]
  rw [hl]
  rw [show (2 ^ 32 + 1) % 2 ^ 32 = 1 by norm_num,
      show (4 + 1) % 2 ^ 32 = 5 by norm_num,
      if_neg (by norm_num),
      show (5 : Nat) - 5 = 0 from rfl,
      Nat.zero_min, List.take_zero, Nat.mod_eq_of_lt hid]
  rfl

/-- C4 counterexample: for the message with id 6 and a payload of `2^32`
zero bytes, serialization succeeds but reads back as an empty-payload
message, so the round trip is not the identity for arbitrary payloads. -/
theorem C4_counterexample :
    Message.Read ((Message.Serialize (some ⟨6, List.replicate (2 ^ 32) 0⟩)).getD []) ≠
      ReadResult.msg ⟨6, List.replicate (2 ^ 32) 0⟩ := by
  rw [serialize_wrap_eval 6 (by norm_num) _ (by rw [List.length_replicate]), Option.getD_some]
  have hread : Message.Read [0, 0, 0, 1, 6] = ReadResult.msg ⟨6, []⟩ := by decide
  rw [hread]
  intro hcontra
  have heq : ([] : List Nat) = List.replicate (2 ^ 32) 0 := by
    injection hcontra with h
    injection h
  have hlen := congrArg List.length heq
  rw [List.length_replicate] at hlen
  simp at hlen

/-- C5 (amended): for every handshake whose protocol string is non-empty and
shorter than 256 bytes (and whose hash fields have their Go array length 20),
reading back its serialization returns the same handshake. -/
theorem C5_handshake_round_trip (hs : Handshake) (hne : hs.Pstr ≠ [])
    (hlt : hs.Pstr.length < 256)
    (hih : hs.InfoHash.length = 20) (hpid : hs.PeerId.length = 20) :
    Handshake.Read (Handshake.Serialize hs) = some hs := by
  obtain ⟨pstr, ih, pid⟩ := hs
  simp only at hne hlt hih hpid
  simp only [Handshake.Serialize, Handshake.Read]
  rw [Nat.mod_eq_of_lt hlt, Nat.mod_eq_of_lt hlt]
  rw [if_neg (by simpa [List.length_eq_zero] using hne)]
  rw [if_neg (by simp [hih, hpid]; omega)]
  have hbuf : List.take (48 + pstr.length) (pstr ++ List.replicate 8 0 ++ ih ++ pid)
      = pstr ++ List.replicate 8 0 ++ ih ++ pid := by
    apply List.take_of_length_le
    simp [hih, hpid]
    omega
  have hP : List.take pstr.length (pstr ++ List.replicate 8 0 ++ ih ++ pid) = pstr := by
    simp only [List.append_assoc]
    exact List.take_left pstr _
  have hIH1 : List.drop (pstr.length + 8) (pstr ++ List.replicate 8 0 ++ ih ++ pid)
      = ih ++ pid := by
    rw [List.append_assoc (pstr ++ List.replicate 8 0) ih pid]
    exact List.drop_left' (by simp)
  have hPID1 : List.drop (pstr.length + 8 + 20) (pstr ++ List.replicate 8 0 ++ ih ++ pid)
      = pid := by
    apply List.drop_left'
    simp [hih]
  rw [hbuf, hP, hIH1, List.take_left' hih, hPID1, List.take_of_length_le (le_of_eq hpid)]

/-- C5 counterexample: a handshake whose protocol string has length 256 has
a non-empty `Pstr`, yet its serialization starts with a zero length byte and
is rejected by `Read`, so the round trip fails. -/
theorem C5_counterexample :
    Handshake.Read (Handshake.Serialize
        ⟨List.replicate 256 66, List.replicate 20 0, List.replicate 20 0⟩) ≠
      some ⟨List.replicate 256 66, List.replicate 20 0, List.replicate 20 0⟩ := by
  set_option maxRecDepth 2000 in decide

/-- C3: for a torrent with `n` pieces (with `n = ceil(L/P)` expressed by the
bounds `(n-1)*P < L <= n*P`) and any index `0 <= i < n`, the computed piece
size equals `min P (L - i*P)`, and the last piece is at most `P` bytes. -/
theorem C3_piece_size (t : Torrent) (n : Nat) (i : Int)
    (hn : n = t.PiecesHashes.length)
    (hP : 0 < t.PieceLength)
    (h0 : 0 ≤ i) (hi : i < (n : Int))
    (hlast : ((n : Int) - 1) * t.PieceLength < t.Length)
    (hL : t.Length ≤ (n : Int) * t.PieceLength) :
    t.calculatePieceSize i = min t.PieceLength (t.Length - i * t.PieceLength) ∧
    t.calculatePieceSize ((n : Int) - 1) ≤ t.PieceLength := by
  have hmul : i * t.PieceLength ≤ ((n : Int) - 1) * t.PieceLength :=
    mul_le_mul_of_nonneg_right (by omega) (le_of_lt hP)
  have hend : ((n : Int) - 1) * t.PieceLength + t.PieceLength = (n : Int) * t.PieceLength := by
    ring
  constructor
  · simp only [Torrent.calculatePieceSize, Torrent.calculateBoundsForPiece]
    split_ifs with h
    · omega
    · omega
  · simp only [Torrent.calculatePieceSize, Torrent.calculateBoundsForPiece]
    split_ifs with h
    · omega
    · omega

/-- Every byte produced by the decimal printer is an ASCII digit. -/
theorem natDecimalAux_digits (fuel : Nat) : ∀ n, ∀ b ∈ natDecimalAux n fuel, 48 ≤ b ∧ b ≤ 57 := by
  induction fuel with
  | zero => intro n b hb; simp [natDecimalAux] at hb
  | succ fuel ih =>
    intro n b hb
    rw [natDecimalAux] at hb
    split_ifs at hb with h
    · simp at hb
      omega
    · rw [List.mem_append] at hb
      rcases hb with hb | hb
      · exact ih _ b hb
      · simp at hb
        omega

/-- Every byte of a printed natural number is an ASCII digit. -/
theorem natDecimal_digits (n : Nat) : ∀ b ∈ natDecimal n, 48 ≤ b ∧ b ≤ 57 :=
  natDecimalAux_digits (n + 1) n

/-- Query escaping leaves pure digit strings unchanged. -/
theorem queryEscape_digits (l : List Nat) (h : ∀ b ∈ l, 48 ≤ b ∧ b ≤ 57) :
    queryEscape l = l := by
  induction l with
  | nil => rfl
  | cons b rest ih =>
    have hb := h b (by simp)
    have hmod : b % 256 = b := Nat.mod_eq_of_lt (by omega)
    have hun : isUnreservedByte (b % 256) = true := by
      simp only [isUnreservedByte, hmod, Bool.or_eq_true, Bool.and_eq_true, decide_eq_true_eq,
        beq_iff_eq]
      omega
    rw [queryEscape, if_pos hun, hmod]
    rw [ih (fun x hx => h x (by simp [hx]))]
    rfl

/-- The tracker URL always consists of the announce URL, `?`, and the seven
parameters in sorted key order, each exactly once with its escaped value. -/
theorem buildTrackerUrl_encode (announce infoHash peerId : List Nat) (port length : Nat) :
    BuildTrackerUrl announce infoHash peerId port length =
      announce ++ strB "?compact=1&downloaded=0&info_hash=" ++ queryEscape infoHash ++
      strB "&left=" ++ natDecimal length ++ strB "&peer_id=" ++ queryEscape peerId ++
      strB "&port=" ++ natDecimal port ++ strB "&uploaded=0" := by
  have h1 : queryEscape (natDecimal port) = natDecimal port :=
    queryEscape_digits _ (natDecimal_digits _)
  have h2 : queryEscape (natDecimal length) = natDecimal length :=
    queryEscape_digits _ (natDecimal_digits _)
  have hsort : sortParams
      [(strB "info_hash", infoHash),
       (strB "peer_id", peerId),
       (strB "port", natDecimal port),
       (strB "uploaded", strB "0"),
       (strB "downloaded", strB "0"),
       (strB "compact", strB "1"),
       (strB "left", natDecimal length)] =
      [(strB "compact", strB "1"),
       (strB "downloaded", strB "0"),
       (strB "info_hash", infoHash),
       (strB "left", natDecimal length),
       (strB "peer_id", peerId),
       (strB "port", natDecimal port),
       (strB "uploaded", strB "0")] := by rfl
  rw [BuildTrackerUrl, encodeValues, hsort]
  rw [List.map_cons, List.map_cons, List.map_cons, List.map_cons, List.map_cons,
      List.map_cons, List.map_cons, List.map_nil]
  simp only [joinAmp]
  rw [h1, h2]
  simp only [List.append_assoc, List.cons_append, List.nil_append]
  rfl

/-- The request-filling loop never exceeds `MaxBacklog` outstanding requests
nor requests beyond the piece length, and never decreases either counter. -/
theorem sendLoop_bounds (len : Int) (b r : Int) (hb8 : b ≤ MaxBacklog) (hr : r ≤ len) :
    b ≤ (sendLoop len b r).1 ∧ (sendLoop len b r).1 ≤ MaxBacklog ∧
    r ≤ (sendLoop len b r).2.1 ∧ (sendLoop len b r).2.1 ≤ len := by
  induction b, r using sendLoop.induct len with
  | case1 b r h bs ih =>
    have hbs : bs = min MaxBlockSize (len - r) := rfl
    rw [sendLoop]
    simp only [if_pos h]
    rw [← hbs]
    simp only [MaxBacklog, MaxBlockSize] at *
    have := ih (by omega) (by omega)
    omega
  | case2 b r h =>
    rw [sendLoop]
    simp only [if_neg h]
    simp only [MaxBacklog] at *
    omega

/-- Processing one conforming message preserves the piece-session invariant. -/
theorem ReadMessage_inv (len : Int) (st : DLState) (m : Option Message) (st2 : DLState)
    (hinv : PieceInv len st) (hc : pieceConforming st m = true)
    (h : st.ReadMessage m = some st2) : PieceInv len st2 := by
  cases m with
  | none =>
    simp only [DLState.ReadMessage, Option.some.injEq] at h
    subst h
    exact hinv
  | some msg =>
    simp only [DLState.ReadMessage] at h
    split_ifs at h with h0 h1 h4 h7
    · simp only [Option.some.injEq] at h
      subst h
      exact hinv
    · simp only [Option.some.injEq] at h
      subst h
      exact hinv
    · rcases hph : ParseHave msg with _ | idx <;> rw [hph] at h
      · simp at h
      · simp only [Option.some.injEq] at h
        subst h
        exact hinv
    · rcases hpp : ParsePiece st.Index st.Buf msg with ⟨res, buf2⟩
      rw [hpp] at h
      cases res with
      | none => simp at h
      | some k =>
        simp only [Option.some.injEq] at h
        subst h
        simp only [pieceConforming, if_pos h7, hpp, Bool.and_eq_true, decide_eq_true_eq] at hc
        simp only [PieceInv] at hinv ⊢
        obtain ⟨hc1, hc2⟩ := hc
        refine ⟨by omega, by omega, by omega, by omega, by omega⟩
    · simp only [Option.some.injEq] at h
      subst h
      exact hinv

/-- Over any conforming run, every reachable state satisfies the invariant
and every request was sent with the choked flag false. -/
theorem runDL_inv (len : Int) (msgs : List (Option Message)) :
    ∀ st : DLState, PieceInv len st → conformingRun len st msgs = true →
      (∀ st' ∈ (runDL len st msgs).1, PieceInv len st') ∧
      (∀ rq ∈ (runDL len st msgs).2, rq.ChokedAtSend = false) := by
  induction msgs with
  | nil =>
    intro st hinv _
    refine ⟨?_, ?_⟩
    · intro st' hst'
      simp only [runDL, List.mem_singleton] at hst'
      subst hst'
      exact hinv
    · intro rq hrq
      simp only [runDL, List.not_mem_nil] at hrq
  | cons m rest ih =>
    intro st hinv hc
    by_cases hd : st.Downloaded < len
    · rw [conformingRun, if_pos hd] at hc
      simp only [runDL, if_pos hd]
      simp only [Bool.and_eq_true] at hc
      set p := (if st.Choked then (st.Backlog, st.Requested, ([] : List (Int × Int)))
                else sendLoop len st.Backlog st.Requested) with hp
      have hinv1 : PieceInv len { st with Backlog := p.1, Requested := p.2.1 } := by
        by_cases hch : st.Choked
        · rw [hp, if_pos hch]
          exact hinv
        · rw [hp, if_neg hch]
          obtain ⟨hA, hB, hC, hD, hE⟩ := hinv
          have := sendLoop_bounds len st.Backlog st.Requested hE hC
          simp only [PieceInv] at *
          refine ⟨by omega, by omega, by omega, by omega, by omega⟩
      have hreqs : ∀ rq ∈ p.2.2.map fun rq =>
          ({ ChokedAtSend := st.Choked, Index := st.Index,
             Begin := rq.1, Length := rq.2 } : SentRequest),
          rq.ChokedAtSend = false := by
        intro rq hrq
        by_cases hch : st.Choked
        · rw [hp, if_pos hch] at hrq
          simp at hrq
        · simp only [List.mem_map] at hrq
          obtain ⟨a, _, ha⟩ := hrq
          rw [← ha]
          simp [hch]
      cases hrm : ({ st with Backlog := p.1, Requested := p.2.1 } : DLState).ReadMessage m with
      | none =>
        rw [hrm] at hc
        refine ⟨?_, ?_⟩
        · intro st' hst'
          simp only [List.mem_cons, List.not_mem_nil, or_false] at hst'
          rcases hst' with h | h
          · subst h; exact hinv
          · subst h; exact hinv1
        · exact hreqs
      | some st2 =>
        rw [hrm] at hc
        obtain ⟨hc1, hc2⟩ := hc
        have hinv2 : PieceInv len st2 := ReadMessage_inv len _ m st2 hinv1 hc1 hrm
        obtain ⟨ihA, ihB⟩ := ih st2 hinv2 hc2
        refine ⟨?_, ?_⟩
        · intro st' hst'
          simp only [List.mem_cons] at hst'
          rcases hst' with h | h | h
          · subst h; exact hinv
          · subst h; exact hinv1
          · exact ihA st' (by simpa using h)
        · intro rq hrq
          simp only [List.mem_append] at hrq
          rcases hrq with h | h
          · exact hreqs rq h
          · exact ihB rq h
    · refine ⟨?_, ?_⟩
      · intro st' hst'
        simp only [runDL, if_neg hd, List.mem_singleton] at hst'
        subst hst'
        exact hinv
      · intro rq hrq
        simp only [runDL, if_neg hd, List.not_mem_nil] at hrq

/-- C1 (amended): during a piece-download attempt driven by any sequence of
incoming messages in which every successfully parsed piece message arrives
while at least one request is outstanding and carries no more bytes than
`requested - downloaded`, every intermediate state satisfies
`0 <= downloaded <= requested <= piece_length` and `0 <= backlog <= 8`, and
no request message is ever sent while the session is choked. -/
theorem C1_piece_session_invariants (index : Nat) (choked0 : Bool) (bf0 : List Nat)
    (len : Int) (hlen : 0 ≤ len) (msgs : List (Option Message))
    (hc : conformingRun len (initProgress index choked0 bf0 len) msgs = true) :
    (∀ st' ∈ (runDL len (initProgress index choked0 bf0 len) msgs).1, PieceInv len st') ∧
    (∀ rq ∈ (runDL len (initProgress index choked0 bf0 len) msgs).2,
      rq.ChokedAtSend = false) := by
  apply runDL_inv len msgs _ _ hc
  simp only [initProgress, PieceInv, MaxBacklog]
  omega

/-- Witness for C1 on a one-byte piece and a single keep-alive message. -/
theorem C1_witness :
    0 ≤ (1 : Int) ∧
    conformingRun 1 (initProgress 0 true [] 1) [none] = true ∧
    ((∀ st' ∈ (runDL 1 (initProgress 0 true [] 1) [none]).1, PieceInv 1 st') ∧
     (∀ rq ∈ (runDL 1 (initProgress 0 true [] 1) [none]).2, rq.ChokedAtSend = false)) :=
  ⟨by decide, by decide,
   C1_piece_session_invariants 0 true [] 1 (by decide) [none] (by decide)⟩

/-- C1 counterexample: an unsolicited piece message delivered while choked
with no outstanding request drives `backlog` to -1 and `downloaded` above
`requested`, violating the stated invariant. -/
theorem C1_counterexample :
    ¬ ∀ st' ∈ (runDL 1 (initProgress 0 true [] 1)
        [some ⟨7, [0, 0, 0, 0, 0, 0, 0, 0, 55]⟩]).1,
      0 ≤ st'.Backlog ∧ st'.Downloaded ≤ st'.Requested := by decide

/-- C8: every built tracker URL contains each of the seven recognized query
parameters exactly once with the specified (byte-for-byte percent-encoded)
value, and on the spec's example inputs the result is the exact URL string
given there. -/
theorem C8_tracker_url :
    (∀ announce infoHash peerId : List Nat, ∀ port length : Nat,
      BuildTrackerUrl announce infoHash peerId port length =
        announce ++ strB "?compact=1&downloaded=0&info_hash=" ++ queryEscape infoHash ++
        strB "&left=" ++ natDecimal length ++ strB "&peer_id=" ++ queryEscape peerId ++
        strB "&port=" ++ natDecimal port ++ strB "&uploaded=0") ∧
    BuildTrackerUrl (strB "http://bttracker.debian.org:6969/announce")
      [0xD8, 0xF7, 0x39, 0xCE, 0xC3, 0x28, 0x95, 0x6C, 0xCC, 0x5B,
       0xBF, 0x1F, 0x86, 0xD9, 0xFD, 0xCF, 0xDB, 0xA8, 0xCE, 0xB6]
      [0, 1, 2, 3, 4, 5, 6, 7, 8, 9, 10, 11, 12, 13, 14, 15, 16, 17, 18, 19]
      6789 351272960 =
    strB "http://bttracker.debian.org:6969/announce?compact=1&downloaded=0&info_hash=%D8%F79%CE%C3%28%95l%CC%5B%BF%1F%86%D9%FD%CF%DB%A8%CE%B6&left=351272960&peer_id=%00%01%02%03%04%05%06%07%08%09%0A%0B%0C%0D%0E%0F%10%11%12%13&port=6789&uploaded=0" := by
  refine ⟨fun announce infoHash peerId port length =>
    buildTrackerUrl_encode announce infoHash peerId port length, ?_⟩
  set_option maxRecDepth 10000 in decide

/-- Witness for C2 on a successful two-byte block write. -/
theorem C2_witness :
    ParsePiece 1 [9, 9, 9, 9] ⟨7, [0, 0, 0, 1, 0, 0, 0, 1, 5, 5]⟩ = (some 2, [9, 5, 5, 9]) := by
  have h := (C2_parse_piece 1 [9, 9, 9, 9] ⟨7, [0, 0, 0, 1, 0, 0, 0, 1, 5, 5]⟩).2
    rfl (by decide) (by decide) (by decide) (by decide)
  rw [h]
  decide

/-- Witness for C3 with `L = 10`, `P = 4`, `n = 3`, `i = 2`. -/
theorem C3_witness :
    Torrent.calculatePieceSize ⟨10, 4, [[], [], []]⟩ 2 =
      min (4 : Int) (10 - 2 * 4) ∧
    Torrent.calculatePieceSize ⟨10, 4, [[], [], []]⟩ ((3 : Nat) - 1 : Int) ≤ 4 := by
  have h := C3_piece_size ⟨10, 4, [[], [], []]⟩ 3 2 (by decide) (by decide)
    (by decide) (by decide) (by decide) (by decide)
  exact h

/-- Witness for C4 on a 3-byte payload. -/
theorem C4_witness :
    (6 : Nat) < 256 ∧ ([1, 2, 3] : List Nat).length ≤ 2 ^ 32 - 6 ∧
    Message.Read ((Message.Serialize (some ⟨6, [1, 2, 3]⟩)).getD []) =
      ReadResult.msg ⟨6, [1, 2, 3]⟩ :=
  ⟨by norm_num, by norm_num,
   C4_message_round_trip.2 ⟨6, [1, 2, 3]⟩ (by norm_num) (by norm_num)⟩

/-- Witness for C5 on a one-byte protocol string. -/
theorem C5_witness :
    Handshake.Read (Handshake.Serialize
        ⟨[66], List.replicate 20 1, List.replicate 20 2⟩) =
      some ⟨[66], List.replicate 20 1, List.replicate 20 2⟩ :=
  C5_handshake_round_trip ⟨[66], List.replicate 20 1, List.replicate 20 2⟩
    (by decide) (by decide) (by decide) (by decide)

/-- Witness for C7 on the two-peer example input. -/
theorem C7_witness :
    ([127, 0, 0, 1, 0, 80, 1, 1, 1, 1, 1, 187] : List Nat).length % 6 = 0 ∧
    ∃ ps, Unmarshal [127, 0, 0, 1, 0, 80, 1, 1, 1, 1, 1, 187] = some ps ∧
      ps.length = ([127, 0, 0, 1, 0, 80, 1, 1, 1, 1, 1, 187] : List Nat).length / 6 ∧
      ∀ k < ([127, 0, 0, 1, 0, 80, 1, 1, 1, 1, 1, 187] : List Nat).length / 6,
        ps.getD k ⟨[], 0⟩ =
          { IP := [([127, 0, 0, 1, 0, 80, 1, 1, 1, 1, 1, 187] : List Nat).getD (6*k) 0,
                   ([127, 0, 0, 1, 0, 80, 1, 1, 1, 1, 1, 187] : List Nat).getD (6*k+1) 0,
                   ([127, 0, 0, 1, 0, 80, 1, 1, 1, 1, 1, 187] : List Nat).getD (6*k+2) 0,
                   ([127, 0, 0, 1, 0, 80, 1, 1, 1, 1, 1, 187] : List Nat).getD (6*k+3) 0],
            Port := 256 * (([127, 0, 0, 1, 0, 80, 1, 1, 1, 1, 1, 187] : List Nat).getD (6*k+4) 0 % 256) +
              ([127, 0, 0, 1, 0, 80, 1, 1, 1, 1, 1, 187] : List Nat).getD (6*k+5) 0 % 256 } :=
  ⟨by decide, (C7_unmarshal [127, 0, 0, 1, 0, 80, 1, 1, 1, 1, 1, 187]).1 (by decide)⟩

/-- Witness for C10 on a message with the wrong id. -/
theorem C10_witness :
    (ParsePiece 0 [1, 2] ⟨5, []⟩).1 = none ∧ (ParsePiece 0 [1, 2] ⟨5, []⟩).2 = [1, 2] :=
  ⟨by decide, C10_parse_piece_error 0 [1, 2] ⟨5, []⟩ (by decide)⟩
